import Mathlib

/-!
Shallow embedding of the gratitude-bot core (src/bot.py and
src/database.py): the `users`, `entries` and `pending_gratitudes`
tables, the reminder-selection query, timezone inference from a claimed
local time, daily-entry append, the pending-gratitude delivery queue,
streak computation, mention extraction and entry-line capture, together
with theorems checking the specification's claims about them.

Conventions: machine integers are `Int`/`Nat`; SQL `%` (truncated
remainder) is `Int.tmod`; Python `round` (ties to even) is spelled out
on integers scaled by the denominator; table states are lists of row
structures kept in insertion order, `SERIAL` ids are a `Nat` counter.
-/

namespace GratitudeBot

/-- Row of the `users` table (src/database.py `init`): `user_id` primary
key, optional `username`, reminder time defaulting to 21:00, and the
nullable integer `timezone` column (read back through `COALESCE(.., 3)`). -/
structure UserRow where
  user_id : Int
  username : Option String
  reminder_hour : Int
  reminder_minute : Int
  timezone : Option Int
  deriving Repr, DecidableEq

/-- The `COALESCE(timezone, 3)` read of a user's timezone column
(src/database.py, `get_users_for_reminder`). -/
def UserRow.tzOrDefault (u : UserRow) : Int :=
  u.timezone.getD 3

/-- The WHERE clause of `get_users_for_reminder` (src/database.py lines
230-237): `reminder_minute = utc_minute AND
((reminder_hour - COALESCE(timezone,3) + 24) % 24) = utc_hour`, with
PostgreSQL `%` being the truncated remainder (`Int.tmod`). -/
def reminderMatchesSQL (u : UserRow) (utc_hour utc_minute : Int) : Bool :=
  u.reminder_minute == utc_minute &&
    Int.tmod (u.reminder_hour - u.tzOrDefault + 24) 24 == utc_hour

/-- Embedding of `Database.get_users_for_reminder` (src/database.py lines
226-238): the ids of the users selected by the SQL filter for the given
UTC hour and minute. -/
def get_users_for_reminder (users : List UserRow) (utc_hour utc_minute : Int) :
    List Int :=
  (users.filter (fun u => reminderMatchesSQL u utc_hour utc_minute)).map
    (fun u => u.user_id)

/-- Modelled from the spec: formulation (a) of reminder selection (§4.4),
missing from src/ as code — convert UTC "now" into the user's local time
by adding the timezone offset modulo 24 and compare hour and minute with
the configured reminder time. -/
def reminderMatchesLocal (u : UserRow) (utc_hour utc_minute : Int) : Bool :=
  (utc_hour + u.tzOrDefault) % 24 == u.reminder_hour &&
    utc_minute == u.reminder_minute

/-- Rounding of `d / 60` to the nearest integer with ties to even: the
exact behaviour of Python's `round(diff_minutes / 60)` in
`process_current_time` (src/bot.py line 196), since `diff_minutes / 60`
is correctly rounded to a double and the tie case `d ≡ 30 (mod 60)`
yields an exactly representable half-integer. -/
def roundDiv60 (d : Int) : Int :=
  let q := d / 60
  let r := d % 60
  if r < 30 then q
  else if 30 < r then q + 1
  else if q % 2 = 0 then q else q + 1

/-- The midnight-wraparound adjustment of `process_current_time`
(src/bot.py lines 189-193): pull a difference of more than ±12 hours
back by a day so it reflects the shortest angular distance. -/
def wrapAdjust (d : Int) : Int :=
  if d > 720 then d - 1440
  else if d < -720 then d + 1440
  else d

/-- Embedding of the offset computation of `process_current_time`
(src/bot.py lines 180-199): minute difference between the claimed local
time and UTC, wraparound adjustment past ±12 hours, rounding to the
nearest hour, and clamping to [-12, 14]. -/
def computeOffset (user_hour user_minute utc_hour utc_minute : Int) : Int :=
  let user_total_minutes := user_hour * 60 + user_minute
  let utc_total_minutes := utc_hour * 60 + utc_minute
  let diff_minutes := user_total_minutes - utc_total_minutes
  let offset := roundDiv60 (wrapAdjust diff_minutes)
  max (-12) (min 14 offset)

example : computeOffset 0 5 23 50 = 0 := by decide

example : computeOffset 14 30 9 30 = 5 := by decide

example : computeOffset 12 0 23 30 = -12 := by decide

/-- Row of the `entries` table (src/database.py `init`): `SERIAL` id,
owning user, JSON list of gratitude items, and the calendar day of
`created_at` (only `DATE(created_at)` is ever compared, so the day is
kept as an integer day number). -/
structure EntryRow where
  id : Nat
  user_id : Int
  gratitudes : List String
  day : Int
  deriving Repr, DecidableEq

/-- State of the `entries` table: rows in insertion order plus the next
`SERIAL` id. -/
structure EntriesState where
  rows : List EntryRow
  nextId : Nat
  deriving Repr, DecidableEq

/-- The `WHERE user_id = $1 AND DATE(created_at) = $2` filter used by
`save_entry`, `get_today_entry` (src/database.py). -/
def entryMatch (user_id day : Int) (r : EntryRow) : Bool :=
  r.user_id == user_id && r.day == day

/-- Embedding of `Database.save_entry` (src/database.py lines 115-139):
fetch the row for (user, today); if present, append the new items to its
list (`UPDATE ... WHERE id = row.id`), otherwise insert a fresh row. -/
def save_entry (s : EntriesState) (user_id : Int) (gratitudes : List String)
    (today : Int) : EntriesState :=
  match s.rows.find? (entryMatch user_id today) with
  | some row =>
    { s with
      rows := s.rows.map (fun r =>
        if r.id == row.id then { r with gratitudes := r.gratitudes ++ gratitudes }
        else r) }
  | none =>
    { rows := s.rows ++ [⟨s.nextId, user_id, gratitudes, today⟩],
      nextId := s.nextId + 1 }

/-- Row of the `pending_gratitudes` table (src/database.py `init`). -/
structure PendingRow where
  id : Nat
  from_user_id : Int
  to_username : String
  gratitude_text : String
  created_at : Nat
  delivered : Bool
  deriving Repr, DecidableEq

/-- Python's `str.lower()` (ASCII range, which covers the handle
alphabet `[a-zA-Z0-9_]`), spelled on the character list so it computes
in the kernel. -/
def pyLower (s : String) : String :=
  String.mk (s.data.map Char.toLower)

/-- The handle normalization `username.lower().lstrip('@')` applied on
every read and write of `pending_gratitudes.to_username` and of
`users.username` lookups (src/database.py). -/
def normalizeUsername (s : String) : String :=
  String.mk ((pyLower s).data.dropWhile (fun c => c == '@'))

/-- Embedding of `Database.save_pending_gratitude` (src/database.py lines
335-342): insert an undelivered row with the normalized recipient handle. -/
def save_pending_gratitude (pend : List PendingRow) (nextId : Nat)
    (from_user_id : Int) (to_username : String) (text : String) (now : Nat) :
    List PendingRow :=
  pend ++ [⟨nextId, from_user_id, normalizeUsername to_username, text, now, false⟩]

/-- Result record of the `get_pending_gratitudes` SELECT: the pending
row's fields joined with the sender's `username`. -/
structure PendingItem where
  id : Nat
  from_user_id : Int
  from_username : Option String
  text : String
  date : Nat
  deriving Repr, DecidableEq

/-- The `JOIN users u ON pg.from_user_id = u.user_id` step of
`get_pending_gratitudes`: a row joins iff its sender exists in `users`. -/
def joinSender (users : List UserRow) (r : PendingRow) : Option PendingItem :=
  (users.find? (fun u => u.user_id == r.from_user_id)).map
    (fun u => ⟨r.id, r.from_user_id, u.username, r.gratitude_text, r.created_at⟩)

/-- Comparison relation for `ORDER BY created_at ASC`. -/
def PendingItem.byDate (a b : PendingItem) : Prop :=
  a.date ≤ b.date

instance : DecidableRel PendingItem.byDate :=
  fun a b => inferInstanceAs (Decidable (a.date ≤ b.date))

instance : IsTotal PendingItem PendingItem.byDate :=
  ⟨fun a b => Nat.le_total a.date b.date⟩

instance : IsTrans PendingItem PendingItem.byDate :=
  ⟨fun _ _ _ h h' => Nat.le_trans h h'⟩

/-- Embedding of `Database.get_pending_gratitudes` (src/database.py lines
344-364): select the undelivered rows whose `to_username` equals the
normalized handle, join each with its sender's user row, and order by
creation time ascending (a stable sort models `ORDER BY created_at ASC`). -/
def get_pending_gratitudes (users : List UserRow) (pend : List PendingRow)
    (username : String) : List PendingItem :=
  List.insertionSort PendingItem.byDate
    ((pend.filter (fun r =>
        r.to_username == normalizeUsername username && r.delivered == false)).filterMap
      (joinSender users))

/-- Embedding of `Database.mark_gratitude_delivered` (src/database.py
lines 366-372): `UPDATE pending_gratitudes SET delivered = TRUE WHERE id = $1`. -/
def mark_gratitude_delivered (pend : List PendingRow) (gratitude_id : Nat) :
    List PendingRow :=
  pend.map (fun r => if r.id == gratitude_id then { r with delivered := true } else r)

/-- Embedding of `deliver_pending_gratitudes` (src/bot.py lines 667-697):
drain the pending items for the handle and, for each, attempt the
transport send (`sendOk` gives the outcome per row id); only on success
is the row marked delivered, and a failure is caught so the remaining
rows are still attempted. -/
def deliver_pending_gratitudes (users : List UserRow) (pend : List PendingRow)
    (username : String) (sendOk : Nat → Bool) : List PendingRow :=
  (get_pending_gratitudes users pend username).foldl
    (fun st g => if sendOk g.id then mark_gratitude_delivered st g.id else st)
    pend

/-- The walk of `get_streak` (src/database.py lines 275-281): starting
from the anchor date, count matching dates down the sorted-descending
list, stopping at the first gap. -/
def streakWalk : List Int → Int → Nat
  | [], _ => 0
  | d :: rest, current =>
    if d == current then streakWalk rest (current - 1) + 1 else 0

/-- Embedding of `Database.get_streak` (src/database.py lines 253-283)
applied to the distinct entry dates sorted descending (the shape the SQL
`SELECT DISTINCT ... ORDER BY entry_date DESC` guarantees): anchor at
today if present, else yesterday, else the streak is 0. -/
def get_streak (dates : List Int) (today : Int) : Nat :=
  match dates with
  | [] => 0
  | d0 :: _ =>
    if d0 == today then streakWalk dates today
    else if d0 == today - 1 then streakWalk dates (today - 1)
    else 0

/-- Length of the run of consecutive days present in `dates`, counting
down from `d`, with explicit fuel (the list length suffices, since the
dates are distinct). -/
def consecutiveFrom (dates : List Int) : Nat → Int → Nat
  | 0, _ => 0
  | n + 1, d => if d ∈ dates then consecutiveFrom dates n (d - 1) + 1 else 0

/-- The specification's streak (spec §4.5): the count of consecutive
calendar days with an entry, walking backward from today, where today
itself is optional (the walk may start at yesterday), and 0 when neither
today nor yesterday has an entry. -/
def specStreak (dates : List Int) (today : Int) : Nat :=
  if today ∈ dates then consecutiveFrom dates dates.length today
  else if today - 1 ∈ dates then consecutiveFrom dates dates.length (today - 1)
  else 0

/-- Character class `[a-zA-Z0-9_]` of the mention pattern (src/bot.py
line 95); `Char.isAlpha`/`Char.isDigit` are exactly the ASCII ranges. -/
def isHandleChar (c : Char) : Bool :=
  c.isAlpha || c.isDigit || c == '_'

/-- Greedy match of at most `n` leading handle characters: the `{4,31}`
repetition of the mention pattern takes as many as possible, up to 31. -/
def takeHandleChars : Nat → List Char → List Char
  | 0, _ => []
  | _, [] => []
  | n + 1, c :: rest =>
    if isHandleChar c then c :: takeHandleChars n rest else []

/-- Scanner for Python's `re.findall(r'@([a-zA-Z][a-zA-Z0-9_]{4,31})', text)`
(src/bot.py lines 93-96): at each position try to match `@`, a letter,
then greedily 4 to 31 more handle characters; on a match, record the
captured group and resume after it (non-overlapping); otherwise advance
one character. The fuel argument (one unit per scanning step, each of
which consumes at least one character) keeps the recursion structural. -/
def scanMentions : Nat → List Char → List String
  | 0, _ => []
  | _, [] => []
  | _ + 1, [_] => []
  | fuel + 1, c :: c1 :: rest1 =>
    if c == '@' && c1.isAlpha then
      let tail := takeHandleChars 31 rest1
      if 4 ≤ tail.length then
        String.mk (c1 :: tail) :: scanMentions fuel (rest1.drop tail.length)
      else scanMentions fuel (c1 :: rest1)
    else scanMentions fuel (c1 :: rest1)

/-- Embedding of `extract_mentions` (src/bot.py lines 93-96). -/
def extract_mentions (text : String) : List String :=
  scanMentions text.data.length text.data

/-- Python's `text.split("\n")`: split the character list at every
newline, keeping empty pieces. -/
def splitNewlines : List Char → List (List Char)
  | [] => [[]]
  | c :: rest =>
    match splitNewlines rest with
    | [] => [[c]]
    | l :: ls => if c == '\n' then [] :: l :: ls else (c :: l) :: ls

/-- Python's `str.strip()` on a line: drop leading and trailing
whitespace (`Char.isWhitespace` covers the space, tab, newline and
carriage-return characters occurring here). -/
def pyStrip (cs : List Char) : List Char :=
  ((cs.dropWhile Char.isWhitespace).reverse.dropWhile Char.isWhitespace).reverse

/-- Embedding of the item capture of `process_gratitude` (src/bot.py
lines 318-332): a message whose text starts with `/` is ignored wholly
(`message.text.startswith('/')`); otherwise the message is split on
newlines, each line stripped, and the non-empty lines are the items
passed to `save_entry` (no save happens when the list is empty). -/
def process_gratitude_items (text : String) : List String :=
  if text.data.head? = some '/' then []
  else
    (((splitNewlines text.data).map pyStrip).filter
      (fun line => line ≠ [])).map String.mk

/-- Python truthiness of the optional `username` argument (`if username:`
is false both for `None` and for the empty string). -/
def pyTruthy : Option String → Bool
  | none => false
  | some s => s != ""

/-- Embedding of `Database.add_user` (src/database.py lines 74-97):
returns whether the user is new, together with the updated table. A new
row gets the lowercased handle (or none) and the column defaults
(21:00 reminder, timezone 3); an existing row keeps its settings and has
its handle replaced only when a truthy username is supplied. -/
def add_user (users : List UserRow) (user_id : Int) (username : Option String) :
    Bool × List UserRow :=
  match users.find? (fun u => u.user_id == user_id) with
  | none =>
    (true, users ++
      [{ user_id := user_id,
         username := if pyTruthy username then some (pyLower (username.getD "")) else none,
         reminder_hour := 21, reminder_minute := 0, timezone := some 3 }])
  | some _ =>
    if pyTruthy username then
      (false, users.map (fun u =>
        if u.user_id == user_id then { u with username := some (pyLower (username.getD "")) }
        else u))
    else (false, users)

/-- Per-user FSM session (aiogram storage): state tag plus the draft
payload set by `state.update_data`. -/
structure Session where
  stateTag : Option String
  draft : List String
  deriving Repr, DecidableEq

/-- Whole-system state touched by the reminder tick: the three tables,
the FSM sessions, and the transport outbox of sent messages. -/
structure BotState where
  users : List UserRow
  pending : List PendingRow
  sessions : List (Int × Session)
  outbox : List (Int × String)
  deriving Repr, DecidableEq

/-- Set (or create) the session of one user. -/
def setSession (sessions : List (Int × Session)) (uid : Int) (s : Session) :
    List (Int × Session) :=
  if sessions.any (fun p => p.1 == uid) then
    sessions.map (fun p => if p.1 == uid then (uid, s) else p)
  else sessions ++ [(uid, s)]

/-- Embedding of `Database.get_username_by_id` (src/database.py lines
326-333): the user's handle, or none when absent or the row is missing. -/
def get_username_by_id (users : List UserRow) (user_id : Int) : Option String :=
  match users.find? (fun u => u.user_id == user_id) with
  | some u => u.username
  | none => none

/-- The Russian plural chosen for the pending count (src/bot.py line 947). -/
def pendingCountWord (n : Nat) : String :=
  if n == 1 then "новая благодарность"
  else if n < 5 then "новые благодарности"
  else "новых благодарностей"

/-- The reminder message text (src/bot.py lines 945-949), with the
informational pending-count prefix when the count is positive. -/
def reminderText (pending_count : Nat) : String :=
  "🌙 Привет!\n\n" ++
    (if pending_count > 0 then
      "💌 У тебя " ++ toString pending_count ++ " " ++
        pendingCountWord pending_count ++ "!\n\n"
    else "") ++
    "За что ты благодарен сегодня?\n\n" ++
    "Напиши списком, а если хочешь поблагодарить кого-то — упомяни @username"

/-- Body of the per-user loop of `send_reminders` (src/bot.py lines
922-961): read the handle, count (but do not drain) the pending
gratitudes, set the FSM state and empty draft, then attempt the send;
a failed send only increments the error counter. The accumulator is
(state, sent_count, error_count). -/
def remindOne (sendOk : Int → Bool) (acc : BotState × Nat × Nat) (uid : Int) :
    BotState × Nat × Nat :=
  let st := acc.1
  let pending_count :=
    match get_username_by_id st.users uid with
    | some un => (get_pending_gratitudes st.users st.pending un).length
    | none => 0
  let st1 := { st with
    sessions := setSession st.sessions uid ⟨some "waiting_for_gratitudes", []⟩ }
  if sendOk uid then
    ({ st1 with outbox := st1.outbox ++ [(uid, reminderText pending_count)] },
      acc.2.1 + 1, acc.2.2)
  else
    (st1, acc.2.1, acc.2.2 + 1)

/-- Embedding of `send_reminders` (src/bot.py lines 909-964): select the
due users for the current UTC minute and run the per-user loop. -/
def send_reminders (st : BotState) (utc_hour utc_minute : Int)
    (sendOk : Int → Bool) : BotState × Nat × Nat :=
  (get_users_for_reminder st.users utc_hour utc_minute).foldl
    (remindOne sendOk) (st, 0, 0)

/-- Validity of a stored user's reminder configuration: hour 0-23 and a
timezone (after the COALESCE default) in the legal UTC offset range. -/
def ValidReminderConfig (u : UserRow) : Prop :=
  0 ≤ u.reminder_hour ∧ u.reminder_hour < 24 ∧
    -12 ≤ u.tzOrDefault ∧ u.tzOrDefault ≤ 14

instance (u : UserRow) : Decidable (ValidReminderConfig u) :=
  inferInstanceAs (Decidable (_ ∧ _ ∧ _ ∧ _))

/-- C1: for every stored user and UTC (hour, minute), the SQL selection
of `get_users_for_reminder` — `(reminder_hour - timezone + 24) mod 24 =
utc_hour and reminder_minute = utc_minute` — selects exactly the users
whose local time (UTC plus offset, modulo 24) equals their configured
reminder time, for every offset in [-12, 14]: the two formulations
produce identical selection sets. -/
theorem reminder_sql_selects_local_time
    (users : List UserRow) (utc_hour utc_minute : Int)
    (husers : ∀ u ∈ users, ValidReminderConfig u)
    (hh1 : 0 ≤ utc_hour) (hh2 : utc_hour < 24) :
    get_users_for_reminder users utc_hour utc_minute =
      (users.filter (fun u => reminderMatchesLocal u utc_hour utc_minute)).map
        (fun u => u.user_id) := by
  unfold get_users_for_reminder
  congr 1
  refine List.filter_congr ?_
  intro u hu
  obtain ⟨h1, h2, h3, h4⟩ := husers u hu
  unfold reminderMatchesSQL reminderMatchesLocal
  have htm : Int.tmod (u.reminder_hour - u.tzOrDefault + 24) 24 =
      (u.reminder_hour - u.tzOrDefault + 24) % 24 :=
    Int.tmod_eq_emod (by omega) (by omega)
  rw [htm]
  have hbool : ∀ x y : Bool, x = y ↔ ((x = true) ↔ (y = true)) := by decide
  rw [hbool]
  simp only [Bool.and_eq_true, beq_iff_eq]
  omega

/-- Witness for C1, with the spec's two concrete cases: a user with
reminder 09:00 and offset +5 is selected exactly at UTC 04:00, and a
user with reminder 00:30 and offset -6 at UTC 06:30. -/
theorem reminder_sql_selects_local_time_witness :
    (get_users_for_reminder
        [⟨1, none, 9, 0, some 5⟩, ⟨2, none, 0, 30, some (-6)⟩] 4 0 =
      (([⟨1, none, 9, 0, some 5⟩, ⟨2, none, 0, 30, some (-6)⟩] :
          List UserRow).filter (fun u => reminderMatchesLocal u 4 0)).map
        (fun u => u.user_id)) ∧
    get_users_for_reminder
      [⟨1, none, 9, 0, some 5⟩, ⟨2, none, 0, 30, some (-6)⟩] 4 0 = [1] ∧
    get_users_for_reminder
      [⟨1, none, 9, 0, some 5⟩, ⟨2, none, 0, 30, some (-6)⟩] 6 30 = [2] ∧
    get_users_for_reminder
      [⟨1, none, 9, 0, some 5⟩, ⟨2, none, 0, 30, some (-6)⟩] 9 0 = [] :=
  ⟨reminder_sql_selects_local_time _ 4 0 (by decide) (by decide) (by decide),
    by decide, by decide, by decide⟩

/-- The rounded quotient is never further than half the divisor from the
exact ratio. -/
theorem roundDiv60_close (d : Int) :
    d - 30 ≤ 60 * roundDiv60 d ∧ 60 * roundDiv60 d ≤ d + 30 := by
  simp only [roundDiv60]
  split_ifs <;> omega

/-- On the wraparound-adjusted range the rounded hour offset stays within
[-12, 12], so the final clamp to [-12, 14] never fires. -/
theorem roundDiv60_range (d : Int) (h1 : -720 ≤ d) (h2 : d ≤ 720) :
    -12 ≤ roundDiv60 d ∧ roundDiv60 d ≤ 12 := by
  simp only [roundDiv60]
  split_ifs <;> omega

/-- The wraparound adjustment lands in [-720, 720] and only shifts the
difference by a whole day. -/
theorem wrapAdjust_spec (d : Int) (h1 : -1439 ≤ d) (h2 : d ≤ 1439) :
    -720 ≤ wrapAdjust d ∧ wrapAdjust d ≤ 720 ∧ (wrapAdjust d - d) % 1440 = 0 := by
  unfold wrapAdjust
  split_ifs <;> omega

/-- C2: for every claimed local time (hour 0-23, minute 0-59) and every
UTC time, the offset computed by `process_current_time` lies in
[-12, 14], and adding `offset * 60` minutes to the UTC time reproduces
the claimed local time to within ±30 minutes modulo 24 hours. -/
theorem compute_offset_sound
    (user_hour user_minute utc_hour utc_minute offset : Int)
    (h1 : 0 ≤ user_hour) (h2 : user_hour ≤ 23)
    (h3 : 0 ≤ user_minute) (h4 : user_minute ≤ 59)
    (h5 : 0 ≤ utc_hour) (h6 : utc_hour ≤ 23)
    (h7 : 0 ≤ utc_minute) (h8 : utc_minute ≤ 59)
    (hoff : offset = computeOffset user_hour user_minute utc_hour utc_minute) :
    (-12 ≤ offset ∧ offset ≤ 14) ∧
    ((user_hour * 60 + user_minute -
        (utc_hour * 60 + utc_minute + offset * 60)) % 1440 ≤ 30 ∨
      1410 ≤ (user_hour * 60 + user_minute -
        (utc_hour * 60 + utc_minute + offset * 60)) % 1440) := by
  subst hoff
  obtain ⟨w1, w2, w3⟩ :=
    wrapAdjust_spec
      (user_hour * 60 + user_minute - (utc_hour * 60 + utc_minute))
      (by omega) (by omega)
  obtain ⟨r1, r2⟩ := roundDiv60_range _ w1 w2
  obtain ⟨c1, c2⟩ :=
    roundDiv60_close
      (wrapAdjust (user_hour * 60 + user_minute - (utc_hour * 60 + utc_minute)))
  have hdef : computeOffset user_hour user_minute utc_hour utc_minute =
      max (-12) (min 14 (roundDiv60
        (wrapAdjust (user_hour * 60 + user_minute - (utc_hour * 60 + utc_minute))))) := rfl
  rw [hdef]
  exact ⟨by omega, by omega⟩

/-- Witness for C2 at the spec's wraparound case: UTC 23:50 with claimed
local 00:05 resolves to offset 0 (near +0/+1, not a naive-subtraction
artifact). -/
theorem compute_offset_sound_witness :
    computeOffset 0 5 23 50 = 0 ∧
    ((-12 ≤ (0 : Int) ∧ (0 : Int) ≤ 14) ∧
      (((0 : Int) * 60 + 5 - (23 * 60 + 50 + 0 * 60)) % 1440 ≤ 30 ∨
        1410 ≤ ((0 : Int) * 60 + 5 - (23 * 60 + 50 + 0 * 60)) % 1440)) :=
  ⟨by decide,
    compute_offset_sound 0 5 23 50 0 (by decide) (by decide) (by decide)
      (by decide) (by decide) (by decide) (by decide) (by decide) (by decide)⟩

/-- C9: one reminder-scheduler tick never writes to the pending-gratitude
store — it reads the undelivered counts but the rows, including every
`delivered` flag, are left exactly as they were, for every state and
every UTC time and any transport outcome. -/
theorem send_reminders_preserves_pending
    (st : BotState) (utc_hour utc_minute : Int) (sendOk : Int → Bool) :
    (send_reminders st utc_hour utc_minute sendOk).1.pending = st.pending := by
  unfold send_reminders
  have key : ∀ (l : List Int) (acc : BotState × Nat × Nat),
      ((l.foldl (remindOne sendOk) acc).1).pending = acc.1.pending := by
    intro l
    induction l with
    | nil => intro acc; rfl
    | cons x xs ih =>
      intro acc
      rw [List.foldl_cons, ih]
      dsimp only [remindOne]
      split <;> rfl
  exact key _ _

/-- C7 counterexample: the mention pattern requires a handle of five or
more characters (a letter plus `{4,31}` more), so `@ann` does not match
and the extractor does not return `["ann", "bob_2"]` on the spec's first
example string. -/
theorem extract_mentions_short_handle_cex :
    extract_mentions "thanks @ann and @bob_2 for help" ≠ ["ann", "bob_2"] := by
  decide

/-- C7 amended: on `"thanks @ann and @bob_2 for help"` the extractor
returns exactly `["bob_2"]` (`ann` is below the 5-character minimum
handle length); on `"@ab"` it returns `[]`; and on `"email@domain.com"`
it returns `["domain"]` — the pattern has no token-boundary guard, so
the sigil inside an e-mail address does produce a match. -/
theorem extract_mentions_examples :
    extract_mentions "thanks @ann and @bob_2 for help" = ["bob_2"] ∧
    extract_mentions "@ab" = [] ∧
    extract_mentions "email@domain.com" = ["domain"] :=
  ⟨by decide, by decide, by decide⟩

/-- C8 counterexample: a line beginning with the command-prefix token
`/` that is not the first line of the message IS stored as an entry item
— the code only discards messages whose whole text starts with `/`. -/
theorem slash_line_stored_cex :
    "/done" ∈ process_gratitude_items "thanks mom\n/done" ∧
    "/done".data.head? = some '/' :=
  ⟨by decide, by decide⟩

/-- C8 amended: in the entry-capture state, a message whose text begins
with the command-prefix token `/` is ignored wholly (none of its lines
are stored); any other message has every one of its non-empty trimmed
lines saved, including lines beginning with `/`. -/
theorem process_gratitude_slash_message (text : String) :
    (text.data.head? = some '/' → process_gratitude_items text = []) ∧
    (text.data.head? ≠ some '/' →
      ∀ line ∈ (splitNewlines text.data).map pyStrip, line ≠ [] →
        String.mk line ∈ process_gratitude_items text) := by
  constructor
  · intro h
    simp [process_gratitude_items, h]
  · intro h line hline hne
    simp only [process_gratitude_items, if_neg h]
    exact List.mem_map_of_mem _ (List.mem_filter.mpr ⟨hline, by simpa using hne⟩)

/-- Witness for the amended C8: a `/`-message saves nothing; a normal
message keeps its first line even though a later line starts with `/`. -/
theorem process_gratitude_slash_message_witness :
    process_gratitude_items "/cancel" = [] ∧
    "thanks" ∈ process_gratitude_items "thanks\n/done" :=
  ⟨(process_gratitude_slash_message "/cancel").1 (by decide),
    (process_gratitude_slash_message "thanks\n/done").2 (by decide)
      "thanks".data (by decide) (by decide)⟩

/-- C10 counterexample: with an existing row and the non-None username
`some ""` (which is falsy in Python), `add_user` returns False but does
NOT replace the stored handle with the lowercased supplied handle. -/
theorem add_user_empty_username_cex :
    (add_user [⟨1, some "old", 21, 0, some 3⟩] 1 (some "")).1 = false ∧
    ¬ ((add_user [⟨1, some "old", 21, 0, some 3⟩] 1 (some "")).2.map
        (fun u => u.username) = [some (pyLower "")]) :=
  ⟨by decide, by decide⟩

/-- C10 amended: `add_user` returns True iff no row with the id existed,
and then appends a row whose handle is the lowercased username when the
username is truthy (non-None and non-empty) and no handle otherwise,
with the default settings; when a row exists it returns False and
replaces the stored handle by the lowercased username only when the
username is truthy, leaving reminder hour, reminder minute and timezone
unchanged (and the whole table untouched when the username is falsy). -/
theorem add_user_spec (users : List UserRow) (user_id : Int)
    (username : Option String) :
    ((add_user users user_id username).1 = true ↔
      ∀ u ∈ users, u.user_id ≠ user_id) ∧
    ((∀ u ∈ users, u.user_id ≠ user_id) →
      (add_user users user_id username).2 =
        users ++ [⟨user_id,
          if pyTruthy username then some (pyLower (username.getD "")) else none,
          21, 0, some 3⟩]) ∧
    ((¬ ∀ u ∈ users, u.user_id ≠ user_id) →
      (add_user users user_id username).2 =
        users.map (fun u =>
          if u.user_id = user_id ∧ pyTruthy username = true then
            { u with username := some (pyLower (username.getD "")) }
          else u)) := by
  by_cases hex : ∀ u ∈ users, u.user_id ≠ user_id
  · have hf : users.find? (fun u => u.user_id == user_id) = none := by
      refine List.find?_eq_none.mpr fun u hu => ?_
      simpa using hex u hu
    unfold add_user
    rw [hf]
    exact ⟨iff_of_true rfl hex, fun _ => rfl, fun h => absurd hex h⟩
  · have hex2 : ∃ u ∈ users, u.user_id = user_id := by
      push_neg at hex
      exact hex
    obtain ⟨u0, hu0, hid⟩ := hex2
    have hf : ∃ v, users.find? (fun u => u.user_id == user_id) = some v := by
      cases hfind : users.find? (fun u => u.user_id == user_id) with
      | none =>
        exact absurd hid (by simpa using List.find?_eq_none.mp hfind u0 hu0)
      | some v => exact ⟨v, rfl⟩
    obtain ⟨v, hf⟩ := hf
    simp only [add_user, hf]
    refine ⟨?_, ?_, fun _ => ?_⟩
    · refine iff_of_false ?_ (by push_neg; exact ⟨u0, hu0, hid⟩)
      split <;> simp
    · intro h
      exact absurd hid (h u0 hu0)
    · by_cases ht : pyTruthy username = true
      · simp only [ht, if_true]
        refine List.map_congr_left fun u _ => ?_
        by_cases hc : u.user_id = user_id
        · simp [hc, ht]
        · simp [hc]
      · rw [if_neg (by simpa using ht)]
        have hmap : users.map (fun u =>
            if u.user_id = user_id ∧ pyTruthy username = true then
              { u with username := some (pyLower (username.getD "")) }
            else u) = users := by
          have h1 : users.map (fun u =>
              if u.user_id = user_id ∧ pyTruthy username = true then
                { u with username := some (pyLower (username.getD "")) }
              else u) = users.map id :=
            List.map_congr_left fun u _ => by simp [ht]
          rw [h1, List.map_id]
        rw [hmap]

/-- Witness for the amended C10: adding a fresh user with handle "Ann"
stores it lowercased with the default settings. -/
theorem add_user_spec_witness :
    (add_user [] 5 (some "Ann")).2 = [⟨5, some "ann", 21, 0, some 3⟩] := by
  have h := (add_user_spec [] 5 (some "Ann")).2.1 (by simp)
  rw [h]
  decide

/-- The filter condition of `get_pending_gratitudes`: addressed to the
normalized handle and not yet delivered. -/
def pendingFor (username : String) (r : PendingRow) : Bool :=
  r.to_username == normalizeUsername username && r.delivered == false

/-- When every sender is registered (the `REFERENCES users(user_id)`
foreign key), the inner join drops no row, so the drained items carry
exactly the ids of the filtered pending rows, in order. -/
theorem filterMap_joinSender_ids (users : List UserRow) :
    ∀ (L : List PendingRow),
      (∀ r ∈ L, ∃ u ∈ users, u.user_id = r.from_user_id) →
      (L.filterMap (joinSender users)).map (fun g => g.id) =
        L.map (fun r => r.id) := by
  intro L
  induction L with
  | nil => intro _; rfl
  | cons r L ih =>
    intro hL
    obtain ⟨u, hu, huid⟩ := hL r (by simp)
    have hjoin : ∃ g, joinSender users r = some g ∧ g.id = r.id := by
      unfold joinSender
      have hfind : ∃ v, users.find? (fun u2 => u2.user_id == r.from_user_id) = some v := by
        cases hfind : users.find? (fun u2 => u2.user_id == r.from_user_id) with
        | none =>
          exact absurd huid (by simpa using List.find?_eq_none.mp hfind u hu)
        | some v => exact ⟨v, rfl⟩
      obtain ⟨v, hv⟩ := hfind
      rw [hv]
      exact ⟨_, rfl, rfl⟩
    obtain ⟨g, hg, hgid⟩ := hjoin
    simp only [List.filterMap_cons, hg, List.map_cons, hgid]
    rw [ih (fun r2 hr2 => hL r2 (by simp [hr2]))]

/-- The ids drained by `get_pending_gratitudes` are a permutation of the
ids of the undelivered rows addressed to the handle, assuming every
sender is a registered user. -/
theorem get_pending_ids_perm (users : List UserRow) (pend : List PendingRow)
    (username : String)
    (hfk : ∀ r ∈ pend, ∃ u ∈ users, u.user_id = r.from_user_id) :
    ((get_pending_gratitudes users pend username).map (fun g => g.id)).Perm
      ((pend.filter (pendingFor username)).map (fun r => r.id)) := by
  unfold get_pending_gratitudes
  refine (List.Perm.map (fun g : PendingItem => g.id)
    (List.perm_insertionSort PendingItem.byDate _)).trans ?_
  rw [filterMap_joinSender_ids users _
    (fun r hr => hfk r (List.mem_of_mem_filter hr))]
  exact List.Perm.refl _

/-- C5: `get_pending_gratitudes` returns exactly the pending rows for
the normalized handle whose delivered flag is false (given the foreign
key that every sender is a registered user), ordered by creation time
oldest first; marking an already-delivered row again is a no-op; and in
the concrete two-insert scenario, marking the first row delivered makes
a re-drain return only the second. -/
theorem pending_queue_contract :
    (∀ (users : List UserRow) (pend : List PendingRow) (username : String),
      (∀ r ∈ pend, ∃ u ∈ users, u.user_id = r.from_user_id) →
      ((get_pending_gratitudes users pend username).map (fun g => g.id)).Perm
        ((pend.filter (pendingFor username)).map (fun r => r.id)) ∧
      (get_pending_gratitudes users pend username).Sorted PendingItem.byDate) ∧
    (∀ (pend : List PendingRow) (gratitude_id : Nat),
      (∀ r ∈ pend, r.id = gratitude_id → r.delivered = true) →
      mark_gratitude_delivered pend gratitude_id = pend) ∧
    (get_pending_gratitudes [⟨1, some "sender", 21, 0, some 3⟩]
        (save_pending_gratitude
          (save_pending_gratitude [] 1 1 "x" "hello" 100) 2 1 "@X" "again" 200)
        "x" =
      [⟨1, 1, some "sender", "hello", 100⟩, ⟨2, 1, some "sender", "again", 200⟩] ∧
     get_pending_gratitudes [⟨1, some "sender", 21, 0, some 3⟩]
        (mark_gratitude_delivered
          (save_pending_gratitude
            (save_pending_gratitude [] 1 1 "x" "hello" 100) 2 1 "@X" "again" 200)
          1)
        "x" =
      [⟨2, 1, some "sender", "again", 200⟩] ∧
     mark_gratitude_delivered
        (mark_gratitude_delivered
          (save_pending_gratitude
            (save_pending_gratitude [] 1 1 "x" "hello" 100) 2 1 "@X" "again" 200)
          1)
        1 =
      mark_gratitude_delivered
        (save_pending_gratitude
          (save_pending_gratitude [] 1 1 "x" "hello" 100) 2 1 "@X" "again" 200)
        1) := by
  refine ⟨?_, ?_, by decide, by decide, by decide⟩
  · intro users pend username hfk
    exact ⟨get_pending_ids_perm users pend username hfk,
      List.sorted_insertionSort _ _⟩
  · intro pend gratitude_id hall
    unfold mark_gratitude_delivered
    have hpt : ∀ r ∈ pend,
        (if r.id == gratitude_id then { r with delivered := true } else r) = r := by
      intro r hr
      by_cases h : r.id = gratitude_id
      · have hd := hall r hr h
        obtain ⟨i, f, t, g, c, dl⟩ := r
        simp only at hd
        simp [h, hd]
      · simp [h]
    rw [List.map_congr_left hpt, List.map_id']

/-- Witness for C5: the idempotent-mark component applied to a concrete
already-delivered row. -/
theorem pending_queue_contract_witness :
    mark_gratitude_delivered [⟨1, 1, "x", "hi", 100, true⟩] 1 =
      [⟨1, 1, "x", "hi", 100, true⟩] :=
  pending_queue_contract.2.1 [⟨1, 1, "x", "hi", 100, true⟩] 1 (by decide)

/-- Folding "mark if the send succeeded" over drained items updates each
stored row exactly when a drained item with its id was sent
successfully; the outcome is independent of failures on earlier rows. -/
theorem foldl_mark_sent (sendOk : Nat → Bool) :
    ∀ (L : List PendingItem) (st : List PendingRow),
      L.foldl (fun st2 g =>
          if sendOk g.id then mark_gratitude_delivered st2 g.id else st2) st =
        st.map (fun r =>
          if (L.map (fun g => g.id)).contains r.id && sendOk r.id then
            { r with delivered := true }
          else r) := by
  intro L
  induction L with
  | nil =>
    intro st
    simp
  | cons g L ih =>
    intro st
    rw [List.foldl_cons]
    by_cases hs : sendOk g.id = true
    · rw [if_pos hs, ih]
      unfold mark_gratitude_delivered
      rw [List.map_map]
      refine List.map_congr_left fun r _ => ?_
      simp only [Function.comp_apply]
      by_cases hid : r.id = g.id
      · have hsr : sendOk r.id = true := by rw [hid]; exact hs
        by_cases hc : ((L.map (fun g2 => g2.id)).contains r.id) = true
        · simp [hid, hsr, hs, hc, List.contains_cons]
        · simp [hid, hsr, hs, List.contains_cons,
            Bool.not_eq_true _ |>.mp hc]
      · simp only [beq_iff_eq, hid, if_neg, ite_false]
        rw [List.map_cons, List.contains_cons]
        simp [hid]
    · have hs2 : sendOk g.id = false := by
        revert hs
        cases sendOk g.id <;> simp
      rw [if_neg hs, ih]
      refine List.map_congr_left fun r _ => ?_
      by_cases hid : r.id = g.id
      · have hsr : sendOk r.id = false := by rw [hid]; exact hs2
        simp [hsr]
      · rw [List.map_cons, List.contains_cons]
        simp [hid]

/-- C4: replaying pending gratitudes marks a row delivered exactly when
the transport send for that row succeeded: rows whose send failed keep
`delivered = false` (so the next drain returns them), the remaining rows
of the replay are still attempted regardless of earlier failures, and
nothing is removed — the whole effect is this per-row flag update. -/
theorem deliver_marks_exactly_sent
    (users : List UserRow) (pend : List PendingRow) (username : String)
    (sendOk : Nat → Bool)
    (hids : (pend.map (fun r => r.id)).Nodup)
    (hfk : ∀ r ∈ pend, ∃ u ∈ users, u.user_id = r.from_user_id) :
    deliver_pending_gratitudes users pend username sendOk =
      pend.map (fun r =>
        if pendingFor username r && sendOk r.id then
          { r with delivered := true }
        else r) := by
  unfold deliver_pending_gratitudes
  rw [foldl_mark_sent]
  refine List.map_congr_left fun r hr => ?_
  have hcont :
      ((get_pending_gratitudes users pend username).map (fun g => g.id)).contains r.id =
        pendingFor username r := by
    have hmem :
        r.id ∈ ((get_pending_gratitudes users pend username).map (fun g => g.id)) ↔
          r.id ∈ ((pend.filter (pendingFor username)).map (fun r2 => r2.id)) :=
      (get_pending_ids_perm users pend username hfk).mem_iff
    by_cases hp : pendingFor username r = true
    · have : r.id ∈ ((pend.filter (pendingFor username)).map (fun r2 => r2.id)) :=
        List.mem_map_of_mem _ (List.mem_filter.mpr ⟨hr, hp⟩)
      rw [hp]
      exact List.elem_iff.mpr (hmem.mpr this)
    · have hp2 : pendingFor username r = false := by
        revert hp
        cases pendingFor username r <;> simp
      rw [hp2]
      by_cases hc :
          ((get_pending_gratitudes users pend username).map (fun g => g.id)).contains r.id = true
      · exfalso
        have hmem2 := hmem.mp (List.elem_iff.mp hc)
        obtain ⟨r2, hr2mem, hr2id⟩ := List.mem_map.mp hmem2
        have hr2pend : r2 ∈ pend := List.mem_of_mem_filter hr2mem
        have hr2cond : pendingFor username r2 = true :=
          (List.mem_filter.mp hr2mem).2
        have : r2 = r := List.inj_on_of_nodup_map hids hr2pend hr hr2id
        rw [this] at hr2cond
        exact absurd hr2cond (by simp [hp2])
      · revert hc
        cases ((get_pending_gratitudes users pend username).map (fun g => g.id)).contains r.id <;>
          simp
  rw [hcont]

/-- Witness for C4: one pending row whose send fails stays undelivered
while a second row, attempted after the failure, is marked. -/
theorem deliver_marks_exactly_sent_witness :
    deliver_pending_gratitudes [⟨1, some "sender", 21, 0, some 3⟩]
        [⟨1, 1, "x", "hello", 100, false⟩, ⟨2, 1, "x", "again", 200, false⟩]
        "x" (fun gid => gid == 2) =
      [⟨1, 1, "x", "hello", 100, false⟩, ⟨2, 1, "x", "again", 200, true⟩] := by
  have h := deliver_marks_exactly_sent [⟨1, some "sender", 21, 0, some 3⟩]
    [⟨1, 1, "x", "hello", 100, false⟩, ⟨2, 1, "x", "again", 200, false⟩]
    "x" (fun gid => gid == 2) (by decide) (by decide)
  rw [h]
  decide

/-- The first row returned by a filtering fetch is the head of the
filtered list (`fetchrow` of a SELECT with a WHERE clause). -/
theorem find?_eq_filter_head {α : Type} (p : α → Bool) (l : List α) :
    l.find? p = (l.filter p).head? := by
  induction l with
  | nil => rfl
  | cons a l ih =>
    cases hpa : p a
    · rw [List.find?_cons_of_neg _ (by simp [hpa]),
        List.filter_cons_of_neg (by simp [hpa]), ih]
    · rw [List.find?_cons_of_pos _ hpa, List.filter_cons_of_pos hpa]
      rfl

/-- Filtering commutes with a map that does not change the predicate. -/
theorem filter_map_pres {α : Type} (f : α → α) (p : α → Bool)
    (hf : ∀ a, p (f a) = p a) (l : List α) :
    (l.map f).filter p = (l.filter p).map f := by
  induction l with
  | nil => rfl
  | cons a l ih =>
    by_cases h : p a
    · simp [List.filter_cons, hf, h, ih]
    · simp [List.filter_cons, hf, h, ih]

/-- Well-formedness of the entries table: every id is below the next
`SERIAL` value and ids are unique. -/
def EntriesWF (s : EntriesState) : Prop :=
  (∀ r ∈ s.rows, r.id < s.nextId) ∧ (s.rows.map (fun r => r.id)).Nodup

/-- A `save_entry` when no row for (user, today) exists inserts exactly
one fresh matching row and keeps the table well-formed. -/
theorem save_entry_fresh_spec (s : EntriesState) (uid today : Int)
    (gs : List String) (hwf : EntriesWF s)
    (hnone : s.rows.filter (entryMatch uid today) = []) :
    EntriesWF (save_entry s uid gs today) ∧
    (save_entry s uid gs today).rows.filter (entryMatch uid today) =
      [⟨s.nextId, uid, gs, today⟩] := by
  have hfind : s.rows.find? (entryMatch uid today) = none := by
    rw [find?_eq_filter_head, hnone]
    rfl
  have hrows : (save_entry s uid gs today).rows =
      s.rows ++ [⟨s.nextId, uid, gs, today⟩] := by
    unfold save_entry
    rw [hfind]
  have hnext : (save_entry s uid gs today).nextId = s.nextId + 1 := by
    unfold save_entry
    rw [hfind]
  refine ⟨⟨?_, ?_⟩, ?_⟩
  · intro r hr
    rw [hrows] at hr
    rw [hnext]
    rcases List.mem_append.mp hr with h1 | h2
    · exact Nat.lt_succ_of_lt (hwf.1 r h1)
    · simp at h2
      rw [h2]
      exact Nat.lt_succ_self _
  · rw [hrows]
    rw [List.map_append]
    rw [List.nodup_append]
    refine ⟨hwf.2, by simp, ?_⟩
    intro x hx hy
    simp at hy
    have hlt := hwf.1
    obtain ⟨r, hrmem, hrid⟩ := List.mem_map.mp hx
    rw [hy] at hrid
    exact absurd hrid (Nat.ne_of_lt (hlt r hrmem))
  · rw [hrows, List.filter_append, hnone]
    simp [entryMatch]

/-- A `save_entry` when exactly one row for (user, today) exists appends
the items to that row and keeps the table well-formed. -/
theorem save_entry_existing_spec (s : EntriesState) (uid today : Int)
    (gs : List String) (r0 : EntryRow) (hwf : EntriesWF s)
    (hone : s.rows.filter (entryMatch uid today) = [r0]) :
    EntriesWF (save_entry s uid gs today) ∧
    (save_entry s uid gs today).rows.filter (entryMatch uid today) =
      [{ r0 with gratitudes := r0.gratitudes ++ gs }] := by
  have hfind : s.rows.find? (entryMatch uid today) = some r0 := by
    rw [find?_eq_filter_head, hone]
    rfl
  have hrows : (save_entry s uid gs today).rows =
      s.rows.map (fun r =>
        if r.id == r0.id then { r with gratitudes := r.gratitudes ++ gs } else r) := by
    unfold save_entry
    rw [hfind]
  have hnext : (save_entry s uid gs today).nextId = s.nextId := by
    unfold save_entry
    rw [hfind]
  have hidpres : ∀ r : EntryRow,
      (if r.id == r0.id then { r with gratitudes := r.gratitudes ++ gs } else r).id =
        r.id := by
    intro r
    by_cases h : r.id = r0.id <;> simp [h]
  have hppres : ∀ r : EntryRow,
      entryMatch uid today
        (if r.id == r0.id then { r with gratitudes := r.gratitudes ++ gs } else r) =
        entryMatch uid today r := by
    intro r
    by_cases h : r.id = r0.id <;> simp [h, entryMatch]
  refine ⟨⟨?_, ?_⟩, ?_⟩
  · intro r hr
    rw [hrows] at hr
    rw [hnext]
    obtain ⟨r2, hr2, hr2eq⟩ := List.mem_map.mp hr
    have := hwf.1 r2 hr2
    rw [← hr2eq]
    rw [hidpres r2]
    exact this
  · rw [hrows, List.map_map]
    have : ((fun r : EntryRow => r.id) ∘ (fun r =>
        if r.id == r0.id then { r with gratitudes := r.gratitudes ++ gs } else r)) =
        fun r : EntryRow => r.id := by
      funext r
      exact hidpres r
    rw [this]
    exact hwf.2
  · rw [hrows, filter_map_pres _ _ hppres, hone]
    simp

/-- Folding further submissions over a state holding exactly one
(user, today) row keeps exactly that row, with the items concatenated in
submission order. -/
theorem foldl_save_from_one (uid today : Int) :
    ∀ (lss : List (List String)) (s : EntriesState) (r0 : EntryRow),
      EntriesWF s → s.rows.filter (entryMatch uid today) = [r0] →
      EntriesWF (lss.foldl (fun st gs => save_entry st uid gs today) s) ∧
      ((lss.foldl (fun st gs => save_entry st uid gs today) s).rows.filter
          (entryMatch uid today)) =
        [{ r0 with gratitudes := r0.gratitudes ++ lss.flatten }] := by
  intro lss
  induction lss with
  | nil =>
    intro s r0 hwf hone
    exact ⟨hwf, by simpa using hone⟩
  | cons gs lss ih =>
    intro s r0 hwf hone
    rw [List.foldl_cons]
    obtain ⟨hwf2, hone2⟩ := save_entry_existing_spec s uid today gs r0 hwf hone
    obtain ⟨hwf3, hfinal⟩ := ih (save_entry s uid gs today) _ hwf2 hone2
    refine ⟨hwf3, ?_⟩
    rw [hfinal]
    simp

/-- C3: starting from a table with no (user, today) row, any sequence of
`save_entry` calls for that user on that day leaves at most one matching
row, and its item list is the concatenation of all submitted lists in
submission order. -/
theorem entry_day_append_law (s : EntriesState) (uid today : Int)
    (lss : List (List String))
    (hwf1 : ∀ r ∈ s.rows, r.id < s.nextId)
    (hwf2 : (s.rows.map (fun r => r.id)).Nodup)
    (hnone : s.rows.filter (entryMatch uid today) = []) :
    ((lss.foldl (fun st gs => save_entry st uid gs today) s).rows.filter
        (entryMatch uid today)).length ≤ 1 ∧
    ((lss.foldl (fun st gs => save_entry st uid gs today) s).rows.filter
        (entryMatch uid today)).map (fun r => r.gratitudes) =
      (if lss.isEmpty then [] else [lss.flatten]) := by
  cases lss with
  | nil => simp [hnone]
  | cons gs lss =>
    rw [List.foldl_cons]
    obtain ⟨hwfA, honeA⟩ :=
      save_entry_fresh_spec s uid today gs ⟨hwf1, hwf2⟩ hnone
    obtain ⟨_, hfinal⟩ := foldl_save_from_one uid today lss _ _ hwfA honeA
    rw [hfinal]
    simp

/-- Witness for C3: submitting ["a","b"] then ["c"] on the same day into
an empty table yields one entry whose items are ["a","b","c"]. -/
theorem entry_day_append_law_witness :
    ((([["a", "b"], ["c"]] : List (List String)).foldl
        (fun st gs => save_entry st 1 gs 0) ⟨[], 0⟩).rows.filter
      (entryMatch 1 0)).length ≤ 1 ∧
    ((([["a", "b"], ["c"]] : List (List String)).foldl
        (fun st gs => save_entry st 1 gs 0) ⟨[], 0⟩).rows.filter
      (entryMatch 1 0)).map (fun r => r.gratitudes) = [["a", "b", "c"]] := by
  have h := entry_day_append_law ⟨[], 0⟩ 1 0 [["a", "b"], ["c"]]
    (by simp) (by simp) rfl
  refine ⟨h.1, ?_⟩
  rw [h.2]
  decide

/-- The backward walk of `get_streak` counts exactly the run of
consecutive days present in the date set, once the sorted-descending
shape guarantees that matching the head is the only way the anchor can
occur: `l` is a suffix of `dates`, everything before it exceeds the
cursor, and everything in it is at most the cursor. -/
theorem streakWalk_eq_consecutive (dates : List Int)
    (hs : dates.Pairwise (fun a b => a > b)) :
    ∀ (l pre : List Int) (fuel : Nat) (c : Int),
      dates = pre ++ l → (∀ x ∈ pre, c < x) → (∀ x ∈ l, x ≤ c) →
      l.length ≤ fuel →
      streakWalk l c = consecutiveFrom dates fuel c := by
  intro l
  induction l with
  | nil =>
    intro pre fuel c heq hpre _ _
    have hcnot : c ∉ dates := by
      rw [heq, List.append_nil]
      intro hc
      exact lt_irrefl c (hpre c hc)
    cases fuel with
    | zero => simp [streakWalk, consecutiveFrom]
    | succ n => simp [streakWalk, consecutiveFrom, hcnot]
  | cons d rest ih =>
    intro pre fuel c heq hpre hle hlen
    have hsl : (d :: rest).Pairwise (fun a b => a > b) := by
      have hs2 := hs
      rw [heq] at hs2
      exact (List.pairwise_append.mp hs2).2.1
    have hrest_lt : ∀ x ∈ rest, x < d :=
      fun x hx => (List.pairwise_cons.mp hsl).1 x hx
    cases fuel with
    | zero => simp at hlen
    | succ n =>
      by_cases hdc : d = c
      · have hcmem : c ∈ dates := by
          rw [heq]
          exact List.mem_append.mpr (Or.inr (by simp [hdc]))
        have hstep : streakWalk (d :: rest) c = streakWalk rest (c - 1) + 1 := by
          simp [streakWalk, hdc]
        have hcf : consecutiveFrom dates (n + 1) c =
            consecutiveFrom dates n (c - 1) + 1 := by
          simp [consecutiveFrom, hcmem]
        rw [hstep, hcf]
        congr 1
        apply ih (pre ++ [d]) n (c - 1)
        · rw [heq, List.append_assoc]
          rfl
        · intro x hx
          rcases List.mem_append.mp hx with h1 | h2
          · have := hpre x h1
            omega
          · simp at h2
            omega
        · intro x hx
          have := hrest_lt x hx
          omega
        · simpa using hlen
      · have hd_le : d ≤ c := hle d (by simp)
        have hcnot : c ∉ dates := by
          rw [heq]
          intro hc
          rcases List.mem_append.mp hc with h1 | h2
          · exact lt_irrefl c (hpre c h1)
          · rcases List.mem_cons.mp h2 with h3 | h4
            · exact hdc h3.symm
            · have := hrest_lt c h4
              omega
        have hzero : streakWalk (d :: rest) c = 0 := by
          simp [streakWalk, hdc]
        rw [hzero]
        simp [consecutiveFrom, hcnot]

/-- C6: on the distinct entry dates sorted descending (all of them at
most today, since entries are created at the current time), `get_streak`
computes the specification's streak — the count of consecutive days
with an entry walking backward from today, today itself optional, 0 when
the most recent entry is neither today nor yesterday. -/
theorem get_streak_eq_spec (dates : List Int) (today : Int)
    (hs : dates.Pairwise (fun a b => a > b))
    (hpast : ∀ d ∈ dates, d ≤ today) :
    get_streak dates today = specStreak dates today := by
  cases hd : dates with
  | nil => simp [get_streak, specStreak]
  | cons d0 rest =>
    subst hd
    have hrest_lt : ∀ x ∈ rest, x < d0 :=
      fun x hx => (List.pairwise_cons.mp hs).1 x hx
    by_cases h1 : d0 = today
    · have hmem : today ∈ d0 :: rest := by simp [h1]
      have hg : get_streak (d0 :: rest) today =
          streakWalk (d0 :: rest) today := by
        simp [get_streak, h1]
      have hspec : specStreak (d0 :: rest) today =
          consecutiveFrom (d0 :: rest) (d0 :: rest).length today := by
        simp [specStreak, hmem]
      rw [hg, hspec]
      exact streakWalk_eq_consecutive _ hs _ [] _ _ rfl (by simp) hpast
        (le_refl _)
    · by_cases h2 : d0 = today - 1
      · have htoday_not : today ∉ d0 :: rest := by
          intro hc
          rcases List.mem_cons.mp hc with h3 | h4
          · exact h1 h3.symm
          · have := hrest_lt today h4
            omega
        have hmem : today - 1 ∈ d0 :: rest := by
          simp [← h2]
        have hg : get_streak (d0 :: rest) today =
            streakWalk (d0 :: rest) (today - 1) := by
          simp [get_streak, h1, h2]
        have hspec : specStreak (d0 :: rest) today =
            consecutiveFrom (d0 :: rest) (d0 :: rest).length (today - 1) := by
          simp [specStreak, htoday_not, hmem]
        rw [hg, hspec]
        refine streakWalk_eq_consecutive _ hs _ [] _ _ rfl (by simp) ?_
          (le_refl _)
        intro x hx
        rcases List.mem_cons.mp hx with h3 | h4
        · omega
        · have := hrest_lt x h4
          omega
      · have hd0 : d0 ≤ today := hpast d0 (by simp)
        have htoday_not : today ∉ d0 :: rest := by
          intro hc
          rcases List.mem_cons.mp hc with h3 | h4
          · exact h1 h3.symm
          · have := hrest_lt today h4
            omega
        have hyest_not : today - 1 ∉ d0 :: rest := by
          intro hc
          rcases List.mem_cons.mp hc with h3 | h4
          · exact h2 h3.symm
          · have := hrest_lt (today - 1) h4
            omega
        have hg : get_streak (d0 :: rest) today = 0 := by
          simp [get_streak, h1, h2]
        rw [hg]
        simp [specStreak, htoday_not, hyest_not]

/-- Witness for C6 with the spec's examples: entries on exactly
{today, today-1, today-2} give streak 3, and entries on only
{today-2, today-3} give streak 0 (with today = 10). -/
theorem get_streak_eq_spec_witness :
    get_streak [10, 9, 8] 10 = specStreak [10, 9, 8] 10 ∧
    get_streak [10, 9, 8] 10 = 3 ∧
    get_streak [8, 7] 10 = specStreak [8, 7] 10 ∧
    get_streak [8, 7] 10 = 0 :=
  ⟨get_streak_eq_spec [10, 9, 8] 10 (by decide) (by decide), by decide,
    get_streak_eq_spec [8, 7] 10 (by decide) (by decide), by decide⟩

end GratitudeBot
